import Mathlib

/-!
Verification model for drink365/estate-tax-app.

The repository has two session-store implementations and an estate-tax
calculator; the parts modelled here are:

* `src/app.py` — JSON-file session store (`_load_store`, `_save_store`,
  `_cleanup_store`, `_set_active_session`, `_get_active_session`,
  `_refresh_active_session`, `_invalidate_session`) and the auth flow
  (`do_login`, `ensure_auth`) with its `strip().lower()` key normalization.
* `src/modules/session_registry.py` — SQLite `SessionRegistry`
  (`upsert`, `get`, `touch`, `delete_if_match`, `cleanup_expired`).
* `src/estate_tax_app.py` / `src/modules/wrapped_estate.py` —
  `compute_deductions` and `calculate_estate_tax` (the two copies are
  line-for-line identical in logic; one Lean definition covers both).

Python dicts (the parsed JSON store) and the sessions table (username is
the primary key) are modelled as association lists with string keys; the
dict invariant of unique keys is the predicate `AList.WF`.  Timestamps and
the TTL are `Int` (Python ints from `int(time.time())`), so subtraction
and comparisons behave exactly as in the source.  Monetary amounts are
`Rat`, standing in for Python floats.
-/

namespace EstateTaxApp

/-- String-keyed association list: the model of a Python dict with string
keys and of the `sessions` table keyed by `username`. -/
abbrev AList (β : Type) := List (String × β)

namespace AList

/-- Model of dict lookup `store.get(u)` and of
`SELECT ... WHERE username = u` (first matching binding). -/
def find {β : Type} : AList β → String → Option β
  | [], _ => none
  | (k, v) :: rest, u => if k = u then some v else find rest u

/-- Model of dict assignment `store[u] = v` and of the SQLite upsert:
replaces the binding for `u` if present, otherwise appends it. -/
def set {β : Type} : AList β → String → β → AList β
  | [], u, v => [(u, v)]
  | (k, w) :: rest, u, v => if k = u then (u, v) :: rest else (k, w) :: set rest u v

/-- Model of `store.pop(u)`: removes the binding for `u`, if any. -/
def erase {β : Type} : AList β → String → AList β
  | [], _ => []
  | (k, w) :: rest, u => if k = u then rest else (k, w) :: erase rest u

/-- The dict invariant: keys occur at most once.  Always true of a parsed
JSON object / of a table with a primary key. -/
def WF {β : Type} (s : AList β) : Prop := (s.map Prod.fst).Nodup

instance decWF {β : Type} (s : AList β) : Decidable (AList.WF s) :=
  decidable_of_iff ((s.map Prod.fst).Nodup) Iff.rfl

lemma find_cons {β : Type} (k : String) (w : β) (rest : AList β) (u : String) :
    AList.find ((k, w) :: rest) u = if k = u then some w else AList.find rest u := rfl

lemma set_cons {β : Type} (k : String) (w : β) (rest : AList β) (u : String) (v : β) :
    AList.set ((k, w) :: rest) u v
      = if k = u then (u, v) :: rest else (k, w) :: AList.set rest u v := rfl

lemma find_eq_none_of_not_mem {β : Type} {s : AList β} {u : String}
    (h : u ∉ s.map Prod.fst) : AList.find s u = none := by
  induction s with
  | nil => rfl
  | cons e rest ih =>
    obtain ⟨k, v⟩ := e
    simp only [List.map_cons, List.mem_cons, not_or] at h
    rw [find_cons, if_neg (fun hk : k = u => h.1 hk.symm)]
    exact ih h.2

lemma mem_keys_of_mem {β : Type} {s : AList β} {u : String} {v : β}
    (h : (u, v) ∈ s) : u ∈ s.map Prod.fst :=
  List.mem_map_of_mem Prod.fst h

lemma find_mem {β : Type} {s : AList β} {u : String} {v : β}
    (h : AList.find s u = some v) : (u, v) ∈ s := by
  induction s with
  | nil => simp [find] at h
  | cons e rest ih =>
    obtain ⟨k, w⟩ := e
    by_cases hk : k = u
    · rw [find_cons, if_pos hk] at h
      have hv : w = v := Option.some.inj h
      rw [← hk, ← hv]
      exact List.mem_cons_self _ _
    · rw [find_cons, if_neg hk] at h
      exact List.mem_cons_of_mem _ (ih h)

lemma find_eq_of_mem {β : Type} {s : AList β} (hWF : AList.WF s) {u : String} {v : β}
    (h : (u, v) ∈ s) : AList.find s u = some v := by
  induction s with
  | nil => simp at h
  | cons e rest ih =>
    obtain ⟨k, w⟩ := e
    rw [WF, List.map_cons, List.nodup_cons] at hWF
    rcases List.mem_cons.mp h with h1 | h1
    · have hk : k = u := (Prod.mk.injEq k w u v ▸ h1.symm).1
      have hv : w = v := (Prod.mk.injEq k w u v ▸ h1.symm).2
      rw [find_cons, if_pos hk, hv]
    · have hku : ¬ k = u := by
        intro hk
        exact hWF.1 (hk ▸ mem_keys_of_mem h1)
      rw [find_cons, if_neg hku]
      exact ih hWF.2 h1

lemma keys_set_subset {β : Type} (s : AList β) (u : String) (v : β) :
    ∀ x ∈ (AList.set s u v).map Prod.fst, x = u ∨ x ∈ s.map Prod.fst := by
  induction s with
  | nil =>
    intro x hx
    simp [set] at hx
    exact Or.inl hx
  | cons e rest ih =>
    obtain ⟨k, w⟩ := e
    intro x hx
    by_cases hk : k = u
    · rw [set_cons, if_pos hk] at hx
      simp only [List.map_cons, List.mem_cons] at hx
      rcases hx with hx | hx
      · exact Or.inl hx
      · exact Or.inr (List.mem_cons_of_mem _ hx)
    · rw [set_cons, if_neg hk] at hx
      simp only [List.map_cons, List.mem_cons] at hx
      rcases hx with hx | hx
      · exact Or.inr (List.mem_cons.mpr (Or.inl hx))
      · rcases ih x hx with h1 | h1
        · exact Or.inl h1
        · exact Or.inr (List.mem_cons_of_mem _ h1)

lemma WF_set {β : Type} {s : AList β} (hWF : AList.WF s) (u : String) (v : β) :
    AList.WF (AList.set s u v) := by
  induction s with
  | nil => simp [set, WF]
  | cons e rest ih =>
    obtain ⟨k, w⟩ := e
    rw [WF, List.map_cons, List.nodup_cons] at hWF
    by_cases hk : k = u
    · rw [WF, set_cons, if_pos hk]
      simp only [List.map_cons, List.nodup_cons]
      exact ⟨hk ▸ hWF.1, hWF.2⟩
    · rw [WF, set_cons, if_neg hk]
      simp only [List.map_cons, List.nodup_cons]
      refine ⟨?_, ih hWF.2⟩
      intro hmem
      rcases keys_set_subset rest u v k hmem with h1 | h1
      · exact hk h1
      · exact hWF.1 h1

lemma find_set_self {β : Type} (s : AList β) (u : String) (v : β) :
    AList.find (AList.set s u v) u = some v := by
  induction s with
  | nil => simp [set, find]
  | cons e rest ih =>
    obtain ⟨k, w⟩ := e
    by_cases hk : k = u
    · rw [set_cons, if_pos hk, find_cons, if_pos rfl]
    · rw [set_cons, if_neg hk, find_cons, if_neg hk]
      exact ih

lemma find_set_ne {β : Type} (s : AList β) {u x : String} (v : β) (h : x ≠ u) :
    AList.find (AList.set s u v) x = AList.find s x := by
  induction s with
  | nil =>
    rw [show AList.set ([] : AList β) u v = [(u, v)] from rfl, find_cons,
      if_neg (fun hux : u = x => h hux.symm)]
  | cons e rest ih =>
    obtain ⟨k, w⟩ := e
    by_cases hk : k = u
    · rw [set_cons, if_pos hk, find_cons, if_neg (fun hux : u = x => h hux.symm),
        find_cons, hk, if_neg (fun hux : u = x => h hux.symm)]
    · rw [set_cons, if_neg hk, find_cons, find_cons]
      by_cases hkx : k = x
      · rw [if_pos hkx, if_pos hkx]
      · rw [if_neg hkx, if_neg hkx]
        exact ih

lemma keys_filter_subset {β : Type} (p : String × β → Bool) (s : AList β) :
    ∀ x ∈ (s.filter p).map Prod.fst, x ∈ s.map Prod.fst := by
  intro x hx
  rcases List.mem_map.mp hx with ⟨e, he, hfst⟩
  exact hfst ▸ List.mem_map_of_mem Prod.fst (List.mem_of_mem_filter he)

lemma find_filter {β : Type} {p : String × β → Bool} {s : AList β}
    (hWF : AList.WF s) (u : String) :
    AList.find (s.filter p) u
      = match AList.find s u with
        | some v => if p (u, v) then some v else none
        | none => none := by
  induction s with
  | nil => rfl
  | cons e rest ih =>
    obtain ⟨k, w⟩ := e
    rw [WF, List.map_cons, List.nodup_cons] at hWF
    by_cases hk : k = u
    · cases hp : p (k, w) with
      | true =>
        rw [List.filter_cons_of_pos hp, find_cons, if_pos hk, find_cons, if_pos hk]
        rw [← hk]
        simp [hp]
      | false =>
        rw [List.filter_cons_of_neg (by simp [hp]), find_cons, if_pos hk]
        have hnone : AList.find (rest.filter p) u = none :=
          find_eq_none_of_not_mem (fun hmem => hWF.1 (hk ▸ keys_filter_subset p rest u hmem))
        rw [hnone, ← hk]
        simp [hp]
    · cases hp : p (k, w) with
      | true =>
        rw [List.filter_cons_of_pos hp, find_cons, if_neg hk, find_cons, if_neg hk]
        exact ih hWF.2
      | false =>
        rw [List.filter_cons_of_neg (by simp [hp]), find_cons, if_neg hk]
        exact ih hWF.2

lemma filter_idem {β : Type} (p : String × β → Bool) (s : AList β) :
    (s.filter p).filter p = s.filter p := by
  induction s with
  | nil => rfl
  | cons e rest ih =>
    cases hp : p e with
    | true =>
      rw [List.filter_cons_of_pos hp, List.filter_cons_of_pos hp, ih]
    | false =>
      rw [List.filter_cons_of_neg (by simp [hp]), ih]

end AList

/-! ## The JSON-file session store of `src/app.py` -/

/-- One value of the store dict, as written by `_set_active_session`:
`{"token": token, "last_seen": int(time.time()), "meta": meta}`.
The `meta` argument is always the dict `{"ts": int(time.time())}` built in
`do_login`; it is modelled by its single timestamp field. -/
structure SessionRecord where
  token : String
  lastSeen : Int
  metaTs : Int
deriving DecidableEq, Repr

/-- The parsed contents of `.sessions.json`: a dict keyed by the
normalized username. -/
abbrev Store := AList SessionRecord

/-- The state of the store file on disk: `none` models a file that is
absent, unreadable or not valid JSON (every case in which
`_load_store` falls back to `{}`); `some s` models a readable file
holding the dict `s`. -/
abbrev FileState := Option Store

/-- Model of `_load_store`: returns the parsed dict, or `{}` when the file
is absent or any exception occurs while reading or parsing it. -/
def loadStore : FileState → Store
  | none => []
  | some s => s

/-- The per-record expiry test of `_cleanup_store`:
`now - int(store[u].get("last_seen", 0)) > SESSION_TTL_SECONDS`. -/
def expired (ttl now : Int) (r : SessionRecord) : Bool :=
  decide (now - r.lastSeen > ttl)

/-- Model of the dict mutation performed by `_cleanup_store`: every entry
whose `last_seen` is more than `ttl` seconds old is popped, all others are
kept unchanged. -/
def cleanupStore (ttl now : Int) (s : Store) : Store :=
  s.filter (fun e => ! expired ttl now e.2)

/-- Whether `_cleanup_store` popped anything (its `changed` flag), which
decides whether it calls `_save_store`. -/
def storeChanged (ttl now : Int) (s : Store) : Bool :=
  s.any (fun e => expired ttl now e.2)

/-- Model of `_set_active_session(username_l, token, meta)`: loads the
store, assigns `store[username_l] = {token, last_seen: now, meta}` and
saves it (`_save_store` writes a temp file and `os.replace`s it over the
store path, so on success the file holds exactly the new dict). -/
def setActiveSession (u tok : String) (now metaTs : Int) (f : FileState) : FileState :=
  some (AList.set (loadStore f) u ⟨tok, now, metaTs⟩)

/-- Model of `_get_active_session(username_l)`: loads the store, runs
`_cleanup_store` on it (which saves the swept dict back to the file iff it
popped something), and returns `store.get(username_l)` from the swept
dict.  Result: the record found (if any) and the file state afterwards. -/
def getActiveSession (ttl now : Int) (u : String) (f : FileState) :
    Option SessionRecord × FileState :=
  let s := loadStore f
  let s2 := cleanupStore ttl now s
  (AList.find s2 u, if storeChanged ttl now s then some s2 else f)

/-- Model of `_refresh_active_session(username_l, token)` (the heartbeat):
returns `false` and leaves the file alone unless the stored record exists
and its token matches, in which case `last_seen` is set to `now` and the
store is saved. -/
def refreshActiveSession (u tok : String) (now : Int) (f : FileState) :
    Bool × FileState :=
  let s := loadStore f
  match AList.find s u with
  | none => (false, f)
  | some r =>
    if r.token ≠ tok then (false, f)
    else (true, some (AList.set s u { r with lastSeen := now }))

/-- Model of `_invalidate_session(username_l)` — the logout of `app.py`.
Note that it receives no token: `if username_l in store: store.pop(...)`
deletes the account record unconditionally. -/
def invalidateSession (u : String) (f : FileState) : FileState :=
  match AList.find (loadStore f) u with
  | none => f
  | some _ => some (AList.erase (loadStore f) u)

/-- The validity check of `ensure_auth` (its condition
`not active or active.get("token") != token` over the record returned by
`_get_active_session`): the presented token is accepted iff a record for
the account survives the TTL sweep and its token equals the presented
one. -/
def isValid (ttl now : Int) (u tok : String) (f : FileState) : Bool :=
  match (getActiveSession ttl now u f).1 with
  | none => false
  | some r => r.token == tok

/-- Model of a full `login` attempt for an already-authenticated user
(`do_login` after `_check_login` succeeds): `secrets.token_urlsafe` may
raise (`tokGen = none`) and `_save_store` may fail (`writeOk = false`).
`_save_store` writes a temp file and renames it with `os.replace`, which
is atomic, so a failed write leaves the original file exactly as it was;
a failed token generation happens before any store access.  Returns the
token handed to the client (`none` when the attempt raised) and the file
state afterwards. -/
def loginAttempt (tokGen : Option String) (writeOk : Bool) (u : String)
    (now metaTs : Int) (f : FileState) : Option String × FileState :=
  match tokGen with
  | none => (none, f)
  | some tok =>
    if writeOk then (some tok, setActiveSession u tok now metaTs f)
    else (none, f)

/-- The key normalization applied by `app.py` before every store access:
`_check_login` looks users up by `username.strip().lower()`, `do_login`
stores under `info["username"].strip().lower()`, and `ensure_auth` and the
logout button re-apply `.strip().lower()` to the remembered username.
Modelled over the character list of the string; `Char.toLower` matches
`str.lower()` on ASCII usernames. -/
def sessionKey (u : String) : String :=
  ⟨((u.data.dropWhile Char.isWhitespace).reverse.dropWhile Char.isWhitespace).reverse.map
    Char.toLower⟩

/-- A login by raw username `u`, as `do_login` performs it: the store key
is the normalized `sessionKey u`. -/
def appLogin (u tok : String) (now : Int) (f : FileState) : FileState :=
  setActiveSession (sessionKey u) tok now now f

/-- A validity check for raw username `u`, as `ensure_auth` performs it:
the store key is the normalized `sessionKey u`. -/
def appIsValid (ttl now : Int) (u tok : String) (f : FileState) : Bool :=
  isValid ttl now (sessionKey u) tok f

/-! ## The SQLite registry of `src/modules/session_registry.py` -/

/-- One row of the `sessions` table: `session_id TEXT`,
`last_seen INTEGER` (the `username` key is the `AList` key). -/
structure RegRow where
  sessionId : String
  lastSeen : Int
deriving DecidableEq, Repr

/-- The `sessions` table, keyed by `username` (primary key). -/
abbrev RegStore := AList RegRow

/-- Model of `SessionRegistry.upsert`: insert-or-replace the row for
`username` with the fresh `session_id` and `last_seen = now`. -/
def regUpsert (u sid : String) (now : Int) (s : RegStore) : RegStore :=
  AList.set s u ⟨sid, now⟩

/-- Model of `SessionRegistry.get`: a pure SELECT, returns the row for
`username` and touches nothing. -/
def regGet (u : String) (s : RegStore) : Option RegRow :=
  AList.find s u

/-- Model of `SessionRegistry.touch`: `UPDATE sessions SET last_seen=now
WHERE username=u` — rewrites `last_seen` of the matching row only. -/
def regTouch (u : String) (now : Int) (s : RegStore) : RegStore :=
  s.map (fun e => if e.1 = u then (e.1, { e.2 with lastSeen := now }) else e)

/-- Model of `SessionRegistry.delete_if_match`: `DELETE FROM sessions
WHERE username=u AND session_id=sid` — a row is removed only when both
the username and the supplied session id match it. -/
def deleteIfMatch (u sid : String) (s : RegStore) : RegStore :=
  s.filter (fun e => ! (e.1 == u && e.2.sessionId == sid))

/-- Model of `SessionRegistry.cleanup_expired`: with
`cutoff = now - ttl_seconds`, `DELETE FROM sessions WHERE last_seen <
cutoff`. -/
def cleanupExpired (ttl now : Int) (s : RegStore) : RegStore :=
  s.filter (fun e => ! decide (e.2.lastSeen < now - ttl))

/-! ## The estate-tax calculation of `src/estate_tax_app.py`
(identical in `src/modules/wrapped_estate.py`, `EstateTaxCalculator`).
Amounts are in units of 萬 and modelled as `Rat`. -/

def EXEMPT_AMOUNT : ℚ := 1333

def FUNERAL_EXPENSE : ℚ := 138

def SPOUSE_DEDUCTION_VALUE : ℚ := 553

def ADULT_CHILD_DEDUCTION : ℚ := 56

def PARENTS_DEDUCTION : ℚ := 138

def DISABLED_DEDUCTION : ℚ := 693

def OTHER_DEPENDENTS_DEDUCTION : ℚ := 56

/-- The 2025 progressive bracket table `TAX_BRACKETS`; the cap `none`
models the final `float('inf')` bracket. -/
def TAX_BRACKETS : List (Option ℚ × ℚ) :=
  [(some 5621, 1/10), (some 11242, 15/100), (none, 2/10)]

/-- Model of `compute_deductions`. -/
def compute_deductions (spouse : Bool) (adultChildren otherDependents
    disabledPeople parents : ℕ) : ℚ :=
  (if spouse then SPOUSE_DEDUCTION_VALUE else 0) +
    FUNERAL_EXPENSE +
    (disabledPeople * DISABLED_DEDUCTION) +
    (adultChildren * ADULT_CHILD_DEDUCTION) +
    (otherDependents * OTHER_DEPENDENTS_DEDUCTION) +
    (parents * PARENTS_DEDUCTION)

/-- The bracket loop of `calculate_estate_tax`: walks the bracket list
carrying `previous_bracket` and the accumulated `tax_due`; a `none` cap
(the `float('inf')` bracket) caps at `taxable` itself and can only occur
in last position, where the `previous_bracket` it leaves behind is never
read — matching the source, where it becomes `inf`. -/
def taxFold (taxable : ℚ) : List (Option ℚ × ℚ) → ℚ → ℚ → ℚ
  | [], _, acc => acc
  | (cap, rate) :: rest, prev, acc =>
    if prev < taxable then
      let capped := match cap with
        | some c => min taxable c
        | none => taxable
      let nextPrev := match cap with
        | some c => c
        | none => taxable
      taxFold taxable rest nextPrev (acc + (capped - prev) * rate)
    else
      taxFold taxable rest prev acc

/-- Python `round(x, 0)`: round-half-to-even on the exact value. -/
def pyRound (x : ℚ) : ℚ :=
  let n : ℤ := ⌊x⌋
  let frac : ℚ := x - n
  if frac < 1/2 then (n : ℚ)
  else if 1/2 < frac then (n : ℚ) + 1
  else if n % 2 = 0 then (n : ℚ) else (n : ℚ) + 1

/-- Model of `calculate_estate_tax`: returns
(課稅遺產淨額, 預估遺產稅, 扣除總額).  The function is total — in
particular, when the exempt amount plus deductions exceeds the estate it
returns `(0, 0, deductions)` rather than raising. -/
def calculate_estate_tax (totalAssets : ℚ) (spouse : Bool)
    (adultChildren otherDependents disabledPeople parents : ℕ) : ℚ × ℚ × ℚ :=
  let deductions := compute_deductions spouse adultChildren otherDependents
    disabledPeople parents
  if totalAssets < EXEMPT_AMOUNT + deductions then
    (0, 0, deductions)
  else
    let taxable := max 0 (totalAssets - EXEMPT_AMOUNT - deductions)
    (taxable, pyRound (taxFold taxable TAX_BRACKETS 0 0), deductions)

/-! ## Supporting lemmas about the session model -/

lemma getActiveSession_fst (ttl now : Int) (u : String) (f : FileState) :
    (getActiveSession ttl now u f).1
      = AList.find (cleanupStore ttl now (loadStore f)) u := rfl

lemma getActiveSession_snd (ttl now : Int) (u : String) (f : FileState) :
    (getActiveSession ttl now u f).2
      = if storeChanged ttl now (loadStore f)
        then some (cleanupStore ttl now (loadStore f)) else f := rfl

lemma loadStore_setActiveSession (u tok : String) (now m : Int) (f : FileState) :
    loadStore (setActiveSession u tok now m f)
      = AList.set (loadStore f) u ⟨tok, now, m⟩ := rfl

lemma find_cleanupStore {s : Store} (hWF : AList.WF s) (ttl now : Int) (u : String) :
    AList.find (cleanupStore ttl now s) u
      = match AList.find s u with
        | some r => if now - r.lastSeen > ttl then none else some r
        | none => none := by
  rw [cleanupStore, AList.find_filter hWF]
  cases hf : AList.find s u with
  | none => rfl
  | some r =>
    cases hd : decide (now - r.lastSeen > ttl) with
    | true =>
      have hp : now - r.lastSeen > ttl := of_decide_eq_true hd
      simp [expired, hd, hp]
    | false =>
      have hp : ¬ now - r.lastSeen > ttl := of_decide_eq_false hd
      simp [expired, hd, hp]

lemma isValid_setActiveSession (ttl now ts m : Int) (u tok t : String)
    (f : FileState) (hWF : AList.WF (loadStore f)) :
    isValid ttl now u t (setActiveSession u tok ts m f)
      = ((tok == t) && ! decide (now - ts > ttl)) := by
  rw [isValid, getActiveSession_fst, loadStore_setActiveSession,
    find_cleanupStore (AList.WF_set hWF u ⟨tok, ts, m⟩), AList.find_set_self]
  by_cases hp : now - ts > ttl
  · simp [hp]
  · simp [hp]

lemma isValid_after_two_logins (ttl t1 t2 now m1 m2 : Int) (k T1 T2 : String)
    (f : FileState) (hWF : AList.WF (loadStore f)) (hT : T1 ≠ T2) (httl : 0 ≤ ttl) :
    isValid ttl now k T1
        (setActiveSession k T2 t2 m2 (setActiveSession k T1 t1 m1 f)) = false
    ∧ isValid ttl t2 k T2
        (setActiveSession k T2 t2 m2 (setActiveSession k T1 t1 m1 f)) = true := by
  have hWF1 : AList.WF (loadStore (setActiveSession k T1 t1 m1 f)) := by
    rw [loadStore_setActiveSession]
    exact AList.WF_set hWF k ⟨T1, t1, m1⟩
  constructor
  · rw [isValid_setActiveSession ttl now t2 m2 k T2 T1 _ hWF1]
    have h2 : (T2 == T1) = false :=
      beq_eq_false_iff_ne.mpr (fun h => hT h.symm)
    simp [h2]
  · rw [isValid_setActiveSession ttl t2 t2 m2 k T2 T2 _ hWF1]
    have h2 : ¬ (t2 - t2 > ttl) := by omega
    simp [h2]
    omega

/-! ## Claims -/

/-- C1: for every account, after a second login stores token `T2`
(distinct from the first login's token `T1`), the validity check rejects
`(A, T1)` at every later time, and accepts `(A, T2)` at the moment the
second login completes (the second login unconditionally overwrites the
session record, so the old token is permanently invalid). -/
theorem c1_second_login_invalidates_first (ttl t1 t2 now m1 m2 : Int)
    (u T1 T2 : String) (f : FileState) (hWF : AList.WF (loadStore f))
    (hT : T1 ≠ T2) (httl : 0 ≤ ttl) :
    isValid ttl now u T1
        (setActiveSession u T2 t2 m2 (setActiveSession u T1 t1 m1 f)) = false
    ∧ isValid ttl t2 u T2
        (setActiveSession u T2 t2 m2 (setActiveSession u T1 t1 m1 f)) = true :=
  isValid_after_two_logins ttl t1 t2 now m1 m2 u T1 T2 f hWF hT httl

theorem c1_witness :
    AList.WF (loadStore (none : FileState)) ∧ "tokA" ≠ "tokB" ∧ (0:Int) ≤ 3600
    ∧ (isValid 3600 99999 "alice" "tokA"
          (setActiveSession "alice" "tokB" 50 50
            (setActiveSession "alice" "tokA" 0 0 (none : FileState))) = false
        ∧ isValid 3600 50 "alice" "tokB"
          (setActiveSession "alice" "tokB" 50 50
            (setActiveSession "alice" "tokA" 0 0 (none : FileState))) = true) :=
  ⟨by decide, by decide, by decide,
    c1_second_login_invalidates_first 3600 0 50 99999 0 50 "alice" "tokA" "tokB"
      none (by decide) (by decide) (by decide)⟩

/-- C2: the validity check accepts `(A, t)` iff a record for `A` is
physically present in the store, its token equals `t`, and
`now - last_seen <= TTL`; a record older than the TTL is rejected even
though it is still in the file (no sweep need have run). -/
theorem c2_validity_iff (ttl now : Int) (u t : String) (f : FileState)
    (hWF : AList.WF (loadStore f)) :
    isValid ttl now u t f = true
      ↔ ∃ r : SessionRecord, AList.find (loadStore f) u = some r
          ∧ r.token = t ∧ now - r.lastSeen ≤ ttl := by
  rw [isValid, getActiveSession_fst, find_cleanupStore hWF]
  cases hf : AList.find (loadStore f) u with
  | none => simp
  | some r =>
    dsimp only
    by_cases hp : now - r.lastSeen > ttl
    · rw [if_pos hp]
      constructor
      · intro h; simp at h
      · rintro ⟨r2, hr2, -, hle⟩
        rw [Option.some.injEq] at hr2
        subst hr2
        omega
    · rw [if_neg hp]
      constructor
      · intro h
        exact ⟨r, rfl, by simpa using h, by omega⟩
      · rintro ⟨r2, hr2, htok, -⟩
        rw [Option.some.injEq] at hr2
        subst hr2
        simpa using htok

theorem c2_witness :
    AList.WF (loadStore (some [("alice", ⟨"T1", 100, 100⟩)] : FileState))
    ∧ (isValid 3600 200 "alice" "T1"
          (some [("alice", ⟨"T1", 100, 100⟩)] : FileState) = true
        ↔ ∃ r : SessionRecord,
            AList.find (loadStore (some [("alice", ⟨"T1", 100, 100⟩)] : FileState))
              "alice" = some r
            ∧ r.token = "T1" ∧ 200 - r.lastSeen ≤ 3600) :=
  ⟨by decide,
    c2_validity_iff 3600 200 "alice" "T1"
      (some [("alice", ⟨"T1", 100, 100⟩)]) (by decide)⟩

/-- C7: a read failure of the backing store (absent, unreadable or
invalid-JSON file, all modelled by the file state `none`) makes
`_load_store` return the empty dict, and hence the validity check returns
`false` for every account and token rather than raising or failing
open. -/
theorem c7_read_failure_fails_closed :
    ∀ (ttl now : Int) (u t : String),
      loadStore none = ([] : Store) ∧ isValid ttl now u t none = false :=
  fun _ _ _ _ => ⟨rfl, rfl⟩

/-- C3 counterexample: the main app's logout, `_invalidate_session`,
receives no token: a stale client that reaches the logout button deletes
the account record unconditionally, so after it runs, the validity check
for the current token fails.  This refutes the claim that a logout with a
non-current token deletes nothing and leaves `(A, Tcurrent)` valid. -/
theorem c3_counterexample :
    isValid 3600 100 "alice" "T2"
        (some [("alice", ⟨"T2", 100, 100⟩)] : FileState) = true
    ∧ invalidateSession "alice"
        (some [("alice", ⟨"T2", 100, 100⟩)] : FileState) = some []
    ∧ isValid 3600 100 "alice" "T2"
        (invalidateSession "alice"
          (some [("alice", ⟨"T2", 100, 100⟩)] : FileState)) = false := by
  decide

/-- C3 (amended): for the SQLite registry, `delete_if_match(A, Told)`
with `Told` different from the session id of the current row for `A`
deletes nothing — the table is left exactly as it was, so the current
record (and hence the validity of its token) is untouched; the main
app's `_invalidate_session`, by contrast, takes no token and deletes
unconditionally. -/
theorem c3_delete_if_match_token_ownership (u Told : String) (s : RegStore)
    (r : RegRow) (hWF : AList.WF s) (hfind : AList.find s u = some r)
    (hne : r.sessionId ≠ Told) :
    deleteIfMatch u Told s = s
    ∧ AList.find (deleteIfMatch u Told s) u = some r := by
  have hself : deleteIfMatch u Told s = s := by
    rw [deleteIfMatch]
    apply List.filter_eq_self.mpr
    intro e he
    by_cases hk : e.1 = u
    · have hmem : (u, e.2) ∈ s := by
        have : e = (u, e.2) := by rw [← hk]
        exact this ▸ he
      have hfe : AList.find s u = some e.2 := AList.find_eq_of_mem hWF hmem
      have her : e.2 = r := Option.some.inj (hfe.symm.trans hfind)
      have hsid : (e.2.sessionId == Told) = false :=
        beq_eq_false_iff_ne.mpr (her ▸ hne)
      simp [hsid]
    · have hk2 : (e.1 == u) = false := beq_eq_false_iff_ne.mpr hk
      simp [hk2]
  exact ⟨hself, by rw [hself]; exact hfind⟩

theorem c3_witness :
    AList.WF ([("alice", ⟨"T2", 5⟩)] : RegStore)
    ∧ AList.find ([("alice", ⟨"T2", 5⟩)] : RegStore) "alice"
        = some (⟨"T2", 5⟩ : RegRow)
    ∧ ("T2" : String) ≠ "T1"
    ∧ (deleteIfMatch "alice" "T1" ([("alice", ⟨"T2", 5⟩)] : RegStore)
          = [("alice", ⟨"T2", 5⟩)]
        ∧ AList.find (deleteIfMatch "alice" "T1"
            ([("alice", ⟨"T2", 5⟩)] : RegStore)) "alice"
          = some (⟨"T2", 5⟩ : RegRow)) :=
  ⟨by decide, by decide, by decide,
    c3_delete_if_match_token_ownership "alice" "T1" [("alice", ⟨"T2", 5⟩)]
      ⟨"T2", 5⟩ (by decide) (by decide) (by decide)⟩

/-- C4 counterexample: reading a session is not mutation-free —
`_get_active_session` runs `_cleanup_store`, which pops expired records
and saves the swept dict, so on a store holding one expired record the
file contents change.  This refutes the claim that the store read and
validity check leave the session store unchanged. -/
theorem c4_counterexample :
    (getActiveSession 3600 10000 "alice"
        (some [("alice", ⟨"T1", 0, 0⟩)] : FileState)).2
      ≠ (some [("alice", ⟨"T1", 0, 0⟩)] : FileState) := by
  decide

/-- C4 (amended): the store read of `_get_active_session` never updates a
`last_seen` timestamp and never alters or removes a record whose age is
within the TTL; its only mutation is deleting records older than the TTL
(it runs the expiry sweep as a side effect).  Formally: after a read, the
binding of every account `v` is exactly the old binding filtered by the
TTL test.  (Heartbeat, `_refresh_active_session`, is a separate
operation, and `session_registry.get` is a pure SELECT.) -/
theorem c4_get_only_sweeps_expired (ttl now : Int) (u v : String)
    (f : FileState) (hWF : AList.WF (loadStore f)) :
    AList.find (loadStore (getActiveSession ttl now u f).2) v
      = match AList.find (loadStore f) v with
        | some r => if now - r.lastSeen > ttl then none else some r
        | none => none := by
  rw [getActiveSession_snd]
  cases hch : storeChanged ttl now (loadStore f) with
  | true =>
    rw [if_pos rfl]
    exact find_cleanupStore hWF ttl now v
  | false =>
    rw [if_neg (by simp)]
    cases hf : AList.find (loadStore f) v with
    | none => rfl
    | some r =>
      dsimp only
      rw [if_neg ?hne]
      case hne =>
        intro hexp
        have hmem : (v, r) ∈ loadStore f := AList.find_mem hf
        have : storeChanged ttl now (loadStore f) = true := by
          rw [storeChanged, List.any_eq_true]
          exact ⟨(v, r), hmem, by simp [expired]; exact hexp⟩
        rw [hch] at this
        exact Bool.false_ne_true this

theorem c4_witness :
    AList.WF (loadStore (some [("alice", ⟨"T1", 100, 100⟩)] : FileState))
    ∧ AList.find
        (loadStore (getActiveSession 3600 200 "bob"
          (some [("alice", ⟨"T1", 100, 100⟩)] : FileState)).2) "alice"
      = match AList.find
            (loadStore (some [("alice", ⟨"T1", 100, 100⟩)] : FileState))
            "alice" with
        | some r => if (200 : Int) - r.lastSeen > 3600 then none else some r
        | none => none :=
  ⟨by decide,
    c4_get_only_sweeps_expired 3600 200 "bob" "alice"
      (some [("alice", ⟨"T1", 100, 100⟩)]) (by decide)⟩

/-- C5: a login attempt that fails — token generation raised, or the
store write failed (where `_save_store` writes a temp file and atomically
`os.replace`s it, so a failed write leaves the previous file contents in
place) — hands out no token and leaves the store file exactly as it was;
and whether the attempt succeeds or fails, the binding of every other
account is untouched, so readers never observe a partially-written
store. -/
theorem c5_failed_login_leaves_store (tokGen : Option String)
    (writeOk : Bool) (u : String) (now m : Int) (f : FileState) :
    ((loginAttempt tokGen writeOk u now m f).1 = none
        → (loginAttempt tokGen writeOk u now m f).2 = f)
    ∧ ∀ v : String, v ≠ u →
        AList.find (loadStore (loginAttempt tokGen writeOk u now m f).2) v
          = AList.find (loadStore f) v := by
  cases tokGen with
  | none => exact ⟨fun _ => rfl, fun _ _ => rfl⟩
  | some tok =>
    cases writeOk with
    | false => exact ⟨fun _ => rfl, fun _ _ => rfl⟩
    | true =>
      constructor
      · intro h
        simp [loginAttempt] at h
      · intro v hv
        show AList.find (loadStore (setActiveSession u tok now m f)) v = _
        rw [loadStore_setActiveSession]
        exact AList.find_set_ne _ _ hv

theorem c5_witness :
    ((loginAttempt none true "alice" 7 7 (some [] : FileState)).2 = some [])
    ∧ ("bob" : String) ≠ "alice"
    ∧ AList.find
        (loadStore (loginAttempt (some "tok") true "alice" 7 7
          (some [] : FileState)).2) "bob"
      = AList.find (loadStore (some [] : FileState)) "bob" :=
  ⟨(c5_failed_login_leaves_store none true "alice" 7 7 (some [])).1 rfl,
    by decide,
    (c5_failed_login_leaves_store (some "tok") true "alice" 7 7
      (some [])).2 "bob" (by decide)⟩

/-- C6: the expiry sweep deletes exactly the too-old records: a record
survives `_cleanup_store` iff it was in the store and
`now - last_seen <= TTL`, and a row survives the registry's
`cleanup_expired` iff it was in the table and `now - last_seen <= ttl`
(its SQL condition `last_seen < now - ttl` is the same test); both sweeps
are idempotent, so repeated invocation removes nothing further. -/
theorem c6_sweep_removes_exactly_expired :
    ∀ (ttl now : Int) (s : Store) (u : String) (r : SessionRecord)
      (rs : RegStore) (v : String) (row : RegRow),
      ((u, r) ∈ cleanupStore ttl now s ↔ (u, r) ∈ s ∧ now - r.lastSeen ≤ ttl)
      ∧ cleanupStore ttl now (cleanupStore ttl now s) = cleanupStore ttl now s
      ∧ ((v, row) ∈ cleanupExpired ttl now rs
          ↔ (v, row) ∈ rs ∧ now - row.lastSeen ≤ ttl)
      ∧ cleanupExpired ttl now (cleanupExpired ttl now rs)
          = cleanupExpired ttl now rs := by
  intro ttl now s u r rs v row
  refine ⟨?_, AList.filter_idem _ s, ?_, AList.filter_idem _ rs⟩
  · rw [cleanupStore, List.mem_filter]
    refine and_congr_right fun _ => ?_
    dsimp only
    rw [expired, Bool.not_eq_true', decide_eq_false_iff_not]
    omega
  · rw [cleanupExpired, List.mem_filter]
    refine and_congr_right fun _ => ?_
    dsimp only
    rw [Bool.not_eq_true', decide_eq_false_iff_not]
    omega

/-- C9: the main app keys its session store by the stripped, lower-cased
username, so any two usernames that normalize to the same key (differing
only in case or surrounding whitespace) share a single session record: a
login by one supersedes the session of the other — afterwards the first
token is invalid for the first username and the second token is valid for
the second username. -/
theorem c9_usernames_share_normalized_key (u1 u2 T1 T2 : String)
    (ttl t1 t2 now : Int) (f : FileState) (hWF : AList.WF (loadStore f))
    (hkey : sessionKey u1 = sessionKey u2) (hT : T1 ≠ T2) (httl : 0 ≤ ttl) :
    appIsValid ttl now u1 T1 (appLogin u2 T2 t2 (appLogin u1 T1 t1 f)) = false
    ∧ appIsValid ttl t2 u2 T2 (appLogin u2 T2 t2 (appLogin u1 T1 t1 f)) = true := by
  simp only [appIsValid, appLogin]
  rw [hkey]
  exact isValid_after_two_logins ttl t1 t2 now t1 t2 (sessionKey u2) T1 T2 f
    hWF hT httl

theorem c9_witness :
    AList.WF (loadStore (none : FileState))
    ∧ sessionKey "Alice" = sessionKey " alice "
    ∧ ("tokA" : String) ≠ "tokB"
    ∧ (0:Int) ≤ 3600
    ∧ (appIsValid 3600 99999 "Alice" "tokA"
          (appLogin " alice " "tokB" 50
            (appLogin "Alice" "tokA" 0 (none : FileState))) = false
        ∧ appIsValid 3600 50 " alice " "tokB"
          (appLogin " alice " "tokB" 50
            (appLogin "Alice" "tokA" 0 (none : FileState))) = true) :=
  ⟨by decide, by decide, by decide, by decide,
    c9_usernames_share_normalized_key "Alice" " alice " "tokA" "tokB"
      3600 0 50 99999 none (by decide) (by decide) (by decide) (by decide)⟩

lemma taxFold_nonneg (x : ℚ) (hx : 0 ≤ x) : 0 ≤ taxFold x TAX_BRACKETS 0 0 := by
  have f1 : (0:ℚ) ≤ min x 5621 := le_min hx (by norm_num)
  rw [TAX_BRACKETS]
  simp only [taxFold]
  split_ifs with h1 h2 h3 <;> try linarith
  · have f2 : (5621:ℚ) ≤ min x 11242 := le_min h2.le (by norm_num)
    linarith
  · have f2 : (5621:ℚ) ≤ min x 11242 := le_min h2.le (by norm_num)
    linarith

lemma pyRound_nonneg (x : ℚ) (hx : 0 ≤ x) : 0 ≤ pyRound x := by
  have hfl : (0:ℚ) ≤ (⌊x⌋ : ℚ) := by
    exact_mod_cast Int.floor_nonneg.mpr hx
  rw [pyRound]
  split_ifs <;> linarith

/-- C10: `calculate_estate_tax` is total: whenever the estate is below
the exempt amount plus total deductions it returns `(0, 0, deductions)`
instead of raising (in particular it does not raise `ValueError` when
deductions exceed the estate, which is what the unit test
`test_invalid_input` expects), and the returned taxable amount and tax
due are always non-negative. -/
theorem c10_calculate_estate_tax_total (totalAssets : ℚ) (spouse : Bool)
    (adultChildren otherDependents disabledPeople parents : ℕ) :
    (totalAssets < EXEMPT_AMOUNT + compute_deductions spouse adultChildren
          otherDependents disabledPeople parents →
        calculate_estate_tax totalAssets spouse adultChildren otherDependents
            disabledPeople parents
          = (0, 0, compute_deductions spouse adultChildren otherDependents
              disabledPeople parents))
    ∧ 0 ≤ (calculate_estate_tax totalAssets spouse adultChildren
        otherDependents disabledPeople parents).1
    ∧ 0 ≤ (calculate_estate_tax totalAssets spouse adultChildren
        otherDependents disabledPeople parents).2.1 := by
  set D := compute_deductions spouse adultChildren otherDependents
    disabledPeople parents with hD
  by_cases hlt : totalAssets < EXEMPT_AMOUNT + D
  · refine ⟨fun _ => ?_, ?_, ?_⟩ <;>
      simp [calculate_estate_tax, ← hD, if_pos hlt]
  · have hmax : (0:ℚ) ≤ max 0 (totalAssets - EXEMPT_AMOUNT - D) := le_max_left _ _
    refine ⟨fun h => absurd h hlt, ?_, ?_⟩
    · simp only [calculate_estate_tax, ← hD, if_neg hlt]
      exact hmax
    · simp only [calculate_estate_tax, ← hD, if_neg hlt]
      exact pyRound_nonneg _ (taxFold_nonneg _ hmax)

theorem c10_witness :
    ((2000:ℚ) < EXEMPT_AMOUNT + compute_deductions true 5 0 0 0)
    ∧ calculate_estate_tax 2000 true 5 0 0 0
        = (0, 0, compute_deductions true 5 0 0 0)
    ∧ compute_deductions true 5 0 0 0 = 971 := by
  have h : (2000:ℚ) < EXEMPT_AMOUNT + compute_deductions true 5 0 0 0 := by
    norm_num [compute_deductions, SPOUSE_DEDUCTION_VALUE, FUNERAL_EXPENSE,
      DISABLED_DEDUCTION, ADULT_CHILD_DEDUCTION, OTHER_DEPENDENTS_DEDUCTION,
      PARENTS_DEDUCTION, EXEMPT_AMOUNT]
  refine ⟨h, (c10_calculate_estate_tax_total 2000 true 5 0 0 0).1 h, ?_⟩
  norm_num [compute_deductions, SPOUSE_DEDUCTION_VALUE, FUNERAL_EXPENSE,
    DISABLED_DEDUCTION, ADULT_CHILD_DEDUCTION, OTHER_DEPENDENTS_DEDUCTION,
    PARENTS_DEDUCTION]

end EstateTaxApp
